import Mathlib

/-!
Verification of the price-change detection and alert-consolidation pipeline of
easy-price-monitor.

Shallow embedding conventions:
* Monetary prices are embedded as `ℚ`.  The Python code stores prices with two
  decimal places and compares/subtracts them; for the properties verified here
  (zero tests, sign tests, threshold comparisons) IEEE floats on such values
  agree with exact rationals.
* CSV dates are ISO-8601 strings that the code sorts lexicographically, which
  coincides with chronological order; MySQL `DATETIME` values are ordered
  chronologically.  Both are embedded as `Nat` timestamps ordered by `≤`.
* Python's `list.sort` (Timsort) and SQL window `ORDER BY` are embedded with
  Mathlib's `List.insertionSort`, which is a stable sort like Timsort.
  SQL leaves the order of rows with equal `timestamp` unspecified; the stable
  model fixes one admissible order.
* `round(x, 2)` (Python) and `ROUND(x, 2)` (SQL) are embedded as `round2`.
  Their tie-breaking rules at exact half-hundredths differ (bankers' rounding
  vs half away from zero vs Mathlib's `round`); no verified property depends
  on the tie rule.
* Rows for which SQL division by zero occurs get `NULL` (MySQL returns `NULL`
  for division by zero in a `SELECT`), embedded as `none`.
* Side-effecting functions (`get_price_changes`' query execution,
  `send_email_alert`'s SMTP traffic) additionally return an explicit list of
  the effects they perform.
-/

namespace PriceMonitor

/-- `measLE d a b` means `d a ≤ d b`: sorting key comparison (ascending). -/
def measLE {α : Type} (d : α → Nat) : α → α → Prop := fun a b => d a ≤ d b

instance {α : Type} (d : α → Nat) : DecidableRel (measLE d) :=
fun a b => Nat.decLe (d a) (d b)

instance {α : Type} (d : α → Nat) : IsTotal α (measLE d) :=
⟨fun a b => Nat.le_total (d a) (d b)⟩

instance {α : Type} (d : α → Nat) : IsTrans α (measLE d) :=
⟨fun _ _ _ hab hbc => Nat.le_trans hab hbc⟩

/-- `measGE d a b` means `d b ≤ d a`: sorting key comparison (descending),
used for the SQL `ORDER BY timestamp DESC`. -/
def measGE {α : Type} (d : α → Nat) : α → α → Prop := fun a b => d b ≤ d a

instance {α : Type} (d : α → Nat) : DecidableRel (measGE d) :=
fun a b => Nat.decLe (d b) (d a)

instance {α : Type} (d : α → Nat) : IsTotal α (measGE d) :=
⟨fun a b => Nat.le_total (d b) (d a)⟩

instance {α : Type} (d : α → Nat) : IsTrans α (measGE d) :=
⟨fun _ _ _ hab hbc => Nat.le_trans hbc hab⟩

/-- Rounding to two decimal places, `round(x, 2)` / `ROUND(x, 2)`. -/
def round2 (q : ℚ) : ℚ := (round (q * 100) : ℤ) / 100

/-- The two largest elements of a list in sort order: `some (latest, previous)`
where `latest` is the last element and `previous` the one before it;
`none` when the list has fewer than two elements. -/
def lastTwo {α : Type} (l : List α) : Option (α × α) :=
  match l.reverse with
  | a :: b :: _ => some (a, b)
  | _ => none

/-- First-occurrence deduplication by a key function with an explicit `seen`
accumulator, the shape used twice in `easyPriceMonitor.main`
(`seen = set(); for change in all_changes: ...`, lines 150-159) and by
Python's insertion-ordered `dict` grouping. -/
def dedupByKeyAux {α κ : Type} (f : α → κ) [DecidableEq κ] : List α → List κ → List α
  | [], _ => []
  | a :: l, seen =>
    if f a ∈ seen then dedupByKeyAux f l seen
    else a :: dedupByKeyAux f l (f a :: seen)

/-- One CSV row of `price_history.csv` as parsed by
`storage/csv_storage.py get_price_changes_csv` (`float(row["price"])`,
date kept as sort key, `row.get("product_url", "")`). -/
structure Row where
  product : String
  shop : String
  price : ℚ
  date : Nat
  product_url : String
deriving DecidableEq

/-- A price-change dict as produced by `get_price_changes_csv`
(`storage/csv_storage.py` lines 84-93) or by the MySQL query
(`storage/mysql_storage.py` lines 163-199).  `price_diff` and
`percent_change` are `Option`s because the SQL `LAG` yields `NULL` for a
pair with a single observation and SQL division by zero yields `NULL`;
the CSV path always fills both.  `product_id` is present only on MySQL
records (the CSV dict has no such key). -/
structure ChangeRecord where
  product_name : String
  shop_name : String
  price : ℚ
  currency : String
  timestamp : Nat
  price_diff : Option ℚ
  percent_change : Option ℚ
  product_url : String
  product_id : Option Nat
deriving DecidableEq

/-- The identity key `(product_name, shop_name)` of a change record. -/
def ckey (c : ChangeRecord) : String × String := (c.product_name, c.shop_name)

/-- The grouping key `(row["product"], row["shop"])` of a CSV row. -/
def rkey (r : Row) : String × String := (r.product, r.shop)

/-- The group of rows for one `(product, shop)` pair, in file order
(`product_shop_prices[key].append(...)`, csv_storage.py lines 54-63). -/
def groupOf (rows : List Row) (k : String × String) : List Row :=
  rows.filter (fun r => decide (rkey r = k))

/-- `prices.sort(key=lambda x: x["date"])`, csv_storage.py line 72. -/
def sortByDate (l : List Row) : List Row := List.insertionSort (measLE Row.date) l

/-- The per-pair body of `get_price_changes_csv` (csv_storage.py lines 67-93):
skip groups with fewer than two rows, sort by date, take the last two,
compute `price_diff` and `percent_change` (defined as `0.0` when the previous
price is `0`), and emit a record only when `price_diff != 0`. -/
def detectPair (k : String × String) (prices : List Row) : Option ChangeRecord :=
  match lastTwo (sortByDate prices) with
  | some (latest, previous) =>
    let price_diff := latest.price - previous.price
    let percent_change :=
      if previous.price ≠ 0 then round2 (price_diff / previous.price * 100) else 0
    if price_diff ≠ 0 then
      some { product_name := k.1, shop_name := k.2, price := latest.price,
             currency := "PLN", timestamp := latest.date,
             price_diff := some price_diff,
             percent_change := some percent_change,
             product_url := latest.product_url, product_id := none }
    else none
  | none => none

/-- `get_price_changes_csv` (csv_storage.py lines 31-95): group the rows by
`(product, shop)` in first-appearance key order (Python `dict` insertion
order) and run the per-pair detection on each group. -/
def get_price_changes_csv (rows : List Row) : List ChangeRecord :=
  (dedupByKeyAux id (rows.map rkey) []).filterMap (fun k => detectPair k (groupOf rows k))

/-- One row of the MySQL `prices` table (mysql_storage.py lines 33-44). -/
structure PriceRow where
  product_id : Nat
  shop_id : Nat
  price : ℚ
  currency : String
  timestamp : Nat
deriving DecidableEq

/-- The relational state read by `get_price_changes`:
`products (id, name)`, `shops (id, name)`,
`product_urls (product_id, shop_id, product_url)` (unique per pair), and
`prices`.  Ids are unique (`AUTO_INCREMENT` primary keys). -/
structure MySQLDB where
  products : List (Nat × String)
  shops : List (Nat × String)
  product_urls : List (Nat × Nat × String)
  prices : List PriceRow
deriving DecidableEq

/-- The window-partition key `(product_id, shop_id)` of a price row. -/
def pkey (r : PriceRow) : Nat × Nat := (r.product_id, r.shop_id)

/-- All price rows of one `(product_id, shop_id)` partition, in table order. -/
def pairRows (db : MySQLDB) (k : Nat × Nat) : List PriceRow :=
  db.prices.filter (fun r => decide (pkey r = k))

/-- The partitions present in the `prices` table. -/
def pairKeys (db : MySQLDB) : List (Nat × Nat) :=
  dedupByKeyAux id (db.prices.map pkey) []

/-- `JOIN products p ON p.id = pr.product_id` / `JOIN shops s` name lookup. -/
def findName (tbl : List (Nat × String)) (i : Nat) : Option String :=
  (tbl.find? (fun e => decide (e.1 = i))).map (fun e => e.2)

/-- `JOIN product_urls pd ON pd.product_id = ... AND pd.shop_id = ...`. -/
def findUrl (tbl : List (Nat × Nat × String)) (k : Nat × Nat) : Option String :=
  (tbl.find? (fun e => decide ((e.1, e.2.1) = k))).map (fun e => e.2.2)

/-- The window `ORDER BY pr.timestamp` inside one partition. -/
def sortByTimestamp (l : List PriceRow) : List PriceRow :=
  List.insertionSort (measLE PriceRow.timestamp) l

/-- The `rn = 1` row the query of `get_price_changes`
(mysql_storage.py lines 163-199) produces for one partition:
the chronologically latest row, joined with the product name, shop name and
stored URL (inner joins: `none` when a join partner is missing), with
`price_diff = pr.price - LAG(pr.price)` (`NULL`, i.e. `none`, when there is
no previous row) and
`percent_change = ROUND((pr.price - LAG(...)) / LAG(...) * 100, 2)`
(`NULL` when there is no previous row or the previous price is `0`,
since MySQL division by zero yields `NULL` in a `SELECT`).
Note the query has no `price_diff != 0` or `rows >= 2` condition: every
partition with at least one row and join partners yields a record. -/
def mysqlPairRecord (db : MySQLDB) (k : Nat × Nat) : Option ChangeRecord :=
  match (sortByTimestamp (pairRows db k)).reverse with
  | latest :: rest =>
    match findName db.products k.1, findName db.shops k.2, findUrl db.product_urls k with
    | some product_name, some shop_name, some product_url =>
      let previous? := rest.head?
      let price_diff := previous?.map (fun previous => latest.price - previous.price)
      let percent_change := previous?.bind (fun previous =>
        if previous.price = 0 then none
        else some (round2 ((latest.price - previous.price) / previous.price * 100)))
      some { product_name := product_name, shop_name := shop_name,
             price := latest.price, currency := latest.currency,
             timestamp := latest.timestamp, price_diff := price_diff,
             percent_change := percent_change, product_url := product_url,
             product_id := some k.1 }
    | _, _, _ => none
  | [] => none

/-- `get_price_changes(db_config, product_ids)` (mysql_storage.py lines
142-211).  Returns the list of executed query parameter lists (the `IN`
lists) alongside the result, so that the absence of any query is provable.
The guard `if not product_ids: return []` (lines 155-157) returns before any
connection or query.  Otherwise: every partition whose `product_id` is in
`product_ids` contributes its `rn = 1` row, the rows are ordered by
`ORDER BY timestamp DESC`, and the trailing Python loop (lines 206-211)
deduplicates by `(row["product_id"], row["shop_name"])` keeping the first. -/
def get_price_changes (db : MySQLDB) (product_ids : List Nat) :
    List (List Nat) × List ChangeRecord :=
  if product_ids = [] then ([], [])
  else
    let pairs := (pairKeys db).filter (fun k => decide (k.1 ∈ product_ids))
    let rows := pairs.filterMap (mysqlPairRecord db)
    let sorted := List.insertionSort (measGE ChangeRecord.timestamp) rows
    ([product_ids], dedupByKeyAux (fun c => (c.product_id, c.shop_name)) sorted [])

/-- The consolidation step of `easyPriceMonitor.main` (lines 118-159):
the per-backend change batches are concatenated in the order the handlers
were requested (`all_changes.extend(changes)`) and then deduplicated by
`(product_name, shop_name)` keeping the first occurrence (lines 150-159,
guarded by `if all_changes:`). -/
def aggregate (batches : List (List ChangeRecord)) : List ChangeRecord :=
  let all_changes := batches.flatten
  if all_changes = [] then all_changes
  else dedupByKeyAux ckey all_changes []

/-- The run-context filter of `easyPriceMonitor.main` (lines 164-188):
first drop records whose `(product_name, shop_name)` is in `scrape_errors`
(guarded by `if all_changes and scrape_errors:`), then drop records whose
`product_name` is not in the current watchlist `product_names`
(guarded by `if all_changes:`). -/
def runContextFilter (changes : List ChangeRecord) (failed : List (String × String))
    (watchlist : List String) : List ChangeRecord :=
  let afterFailed :=
    if changes ≠ [] ∧ failed ≠ [] then
      changes.filter (fun c => !decide (ckey c ∈ failed))
    else changes
  if afterFailed ≠ [] then
    afterFailed.filter (fun c => decide (c.product_name ∈ watchlist))
  else afterFailed

/-- The threshold classifier of `easyPriceMonitor.main` (lines 190-211,
guarded by `if all_changes:`): a record whose `percent_change` is not `None`
is appended to `alerts` exactly when `abs(percent_float) >= percent_threshold`;
records with `percent_change is None` are never alerted. -/
def classify (changes : List ChangeRecord) (threshold : ℚ) : List ChangeRecord :=
  if changes = [] then []
  else changes.filter (fun c =>
    match c.percent_change with
    | some percent => decide (threshold ≤ |percent|)
    | none => false)

/-- Externally visible effects of the alert dispatcher. -/
inductive EmailEffect where
  | buildMessage (itemCount : Nat)
  | connectSSL (host : String) (port : Nat)
  | connectStartTLS (host : String) (port : Nat)
  | login (user : String)
  | send
deriving DecidableEq

/-- Effect skeleton of `notifier.send_email_alert` (notifier.py lines 16-232):
the guard `if not changes: return` (lines 30-31) exits before anything else;
otherwise the MIME message is built from the changes, an SMTP connection is
opened (SSL for port 465, STARTTLS otherwise), the client logs in and the
message is sent.  Message contents are abstracted to the item count; only
the effects and their order are modelled. -/
def send_email_alert (changes : List ChangeRecord) (host user : String) (port : Nat) :
    List EmailEffect :=
  if changes = [] then []
  else
    EmailEffect.buildMessage changes.length ::
      ((if port = 465 then [EmailEffect.connectSSL host port]
        else [EmailEffect.connectStartTLS host port]) ++
        [EmailEffect.login user, EmailEffect.send])

/-- The dispatch site in `easyPriceMonitor.main` (lines 213-223):
`send_email_alert` is called only when `alerts` is non-empty. -/
def dispatchAlerts (alerts : List ChangeRecord) (host user : String) (port : Nat) :
    List EmailEffect :=
  if alerts ≠ [] then send_email_alert alerts host user port else []

/-- First record with a given `(product_name, shop_name)` key. -/
def findByKey (k : String × String) (l : List ChangeRecord) : Option ChangeRecord :=
  l.find? (fun c => decide (ckey c = k))

/-- Fixture: a change record for closed concrete theorems. -/
def mkRecord (product shop : String) (price : ℚ) (ts : Nat)
    (diff percent : Option ℚ) : ChangeRecord :=
  ⟨product, shop, price, "PLN", ts, diff, percent, "u", none⟩

/-- Fixture: a CSV row for closed concrete theorems. -/
def mkRow (product shop : String) (price : ℚ) (date : Nat) : Row :=
  ⟨product, shop, price, date, "u"⟩

/-- Fixture: a price-table row for product 1 at shop 1. -/
def mkPrice (price : ℚ) (ts : Nat) : PriceRow := ⟨1, 1, price, "PLN", ts⟩

/-- Fixture: a database whose product 1 is "Widget" sold at shop 1 "ShopA". -/
def demoDB (prices : List PriceRow) : MySQLDB :=
  ⟨[(1, "Widget")], [(1, "ShopA")], [(1, 1, "u")], prices⟩

/-! ### Helper lemmas: first-occurrence deduplication -/

theorem mem_dedupByKeyAux_not_seen {α κ : Type} (f : α → κ) [DecidableEq κ]
    (l : List α) : ∀ (seen : List κ) (a : α), a ∈ dedupByKeyAux f l seen → f a ∉ seen := by
  induction l with
  | nil => intro seen a ha; simp [dedupByKeyAux] at ha
  | cons b l ih =>
    intro seen a ha
    by_cases hb : f b ∈ seen
    · simp only [dedupByKeyAux] at ha
      rw [if_pos hb] at ha
      exact ih seen a ha
    · simp only [dedupByKeyAux] at ha
      rw [if_neg hb] at ha
      rcases List.mem_cons.mp ha with rfl | ha'
      · exact hb
      · have hnot := ih (f b :: seen) a ha'
        intro hs
        exact hnot (List.mem_cons_of_mem _ hs)

theorem pairwise_dedupByKeyAux {α κ : Type} (f : α → κ) [DecidableEq κ]
    (l : List α) : ∀ seen : List κ,
      (dedupByKeyAux f l seen).Pairwise (fun a b => f a ≠ f b) := by
  induction l with
  | nil => intro seen; simp [dedupByKeyAux]
  | cons b l ih =>
    intro seen
    by_cases hb : f b ∈ seen
    · simp only [dedupByKeyAux]
      rw [if_pos hb]
      exact ih seen
    · simp only [dedupByKeyAux]
      rw [if_neg hb]
      refine List.Pairwise.cons ?_ (ih _)
      intro a ha he
      exact mem_dedupByKeyAux_not_seen f l (f b :: seen) a ha (he ▸ List.mem_cons_self _ _)

theorem find?_dedupByKeyAux {α κ : Type} (f : α → κ) [DecidableEq κ] (k : κ)
    (l : List α) : ∀ seen : List κ, k ∉ seen →
      (dedupByKeyAux f l seen).find? (fun a => decide (f a = k)) =
        l.find? (fun a => decide (f a = k)) := by
  induction l with
  | nil => intro seen _; simp [dedupByKeyAux]
  | cons b l ih =>
    intro seen hk
    by_cases hb : f b ∈ seen
    · simp only [dedupByKeyAux]
      rw [if_pos hb]
      have hbk : ¬(f b = k) := fun he => hk (he ▸ hb)
      rw [List.find?_cons_of_neg _ (by simpa using hbk), ih seen hk]
    · simp only [dedupByKeyAux]
      rw [if_neg hb]
      by_cases hbk : f b = k
      · rw [List.find?_cons_of_pos _ (by simpa using hbk),
          List.find?_cons_of_pos _ (by simpa using hbk)]
      · rw [List.find?_cons_of_neg _ (by simpa using hbk),
          List.find?_cons_of_neg _ (by simpa using hbk)]
        refine ih _ ?_
        intro hmem
        rcases List.mem_cons.mp hmem with he | hmem'
        · exact hbk he.symm
        · exact hk hmem'

theorem mem_dedupByKeyAux_id {κ : Type} [DecidableEq κ]
    (l : List κ) : ∀ (seen : List κ) (k : κ),
      k ∈ dedupByKeyAux id l seen ↔ k ∈ l ∧ k ∉ seen := by
  induction l with
  | nil => intro seen k; simp [dedupByKeyAux]
  | cons b l ih =>
    intro seen k
    simp only [dedupByKeyAux, id_eq]
    by_cases hb : b ∈ seen
    · rw [if_pos hb, ih]
      constructor
      · rintro ⟨hl, hs⟩
        exact ⟨List.mem_cons_of_mem _ hl, hs⟩
      · rintro ⟨hbl, hs⟩
        rcases List.mem_cons.mp hbl with rfl | hl
        · exact absurd hb hs
        · exact ⟨hl, hs⟩
    · rw [if_neg hb]
      constructor
      · intro hm
        rcases List.mem_cons.mp hm with rfl | hm'
        · exact ⟨List.mem_cons_self _ _, hb⟩
        · have hml := (ih _ _).mp hm'
          exact ⟨List.mem_cons_of_mem _ hml.1,
            fun hs => hml.2 (List.mem_cons_of_mem _ hs)⟩
      · rintro ⟨hbl, hs⟩
        by_cases hkb : k = b
        · subst hkb
          exact List.mem_cons_self _ _
        · rcases List.mem_cons.mp hbl with rfl | hl
          · exact absurd rfl hkb
          · refine List.mem_cons_of_mem _ ((ih _ _).mpr ⟨hl, ?_⟩)
            intro hm
            rcases List.mem_cons.mp hm with he | hs'
            · exact hkb he
            · exact hs hs'

/-! ### Helper lemmas: stable sort, filtering and the two most recent elements -/

theorem orderedInsert_eq_cons {α : Type} (d : α → Nat) (x : α) (t : List α)
    (h : ∀ c ∈ t, measLE d x c) : List.orderedInsert (measLE d) x t = x :: t := by
  cases t with
  | nil => rfl
  | cons c t => exact List.orderedInsert_of_le (measLE d) t (h c (List.mem_cons_self _ _))

theorem filter_orderedInsert {α : Type} (d : α → Nat) (p : α → Bool) (x : α)
    (t : List α) : List.Sorted (measLE d) t →
    (List.orderedInsert (measLE d) x t).filter p =
      if p x then List.orderedInsert (measLE d) x (t.filter p) else t.filter p := by
  induction t with
  | nil =>
    intro _
    by_cases hx : p x <;> simp [List.orderedInsert, hx]
  | cons b t ih =>
    intro hs
    have hst : List.Sorted (measLE d) t := hs.of_cons
    have hbt : ∀ c ∈ t, measLE d b c := List.rel_of_sorted_cons hs
    by_cases hxb : measLE d x b
    · rw [List.orderedInsert, if_pos hxb]
      by_cases hx : p x
      · rw [if_pos hx]
        by_cases hb : p b
        · rw [List.filter_cons_of_pos hx, List.filter_cons_of_pos hb,
            List.orderedInsert, if_pos hxb]
        · rw [List.filter_cons_of_pos hx, List.filter_cons_of_neg hb]
          refine (orderedInsert_eq_cons d x (t.filter p) ?_).symm
          intro c hc
          exact Nat.le_trans hxb (hbt c (List.mem_of_mem_filter hc))
      · rw [if_neg hx, List.filter_cons_of_neg hx]
    · rw [List.orderedInsert, if_neg hxb]
      by_cases hb : p b
      · rw [List.filter_cons_of_pos hb, ih hst]
        by_cases hx : p x
        · rw [if_pos hx, if_pos hx, List.filter_cons_of_pos hb, List.orderedInsert,
            if_neg hxb]
        · rw [if_neg hx, if_neg hx, List.filter_cons_of_pos hb]
      · rw [List.filter_cons_of_neg hb, ih hst]
        by_cases hx : p x
        · rw [if_pos hx, if_pos hx, List.filter_cons_of_neg hb]
        · rw [if_neg hx, if_neg hx, List.filter_cons_of_neg hb]

theorem filter_insertionSort {α : Type} (d : α → Nat) (p : α → Bool) (l : List α) :
    (List.insertionSort (measLE d) l).filter p =
      List.insertionSort (measLE d) (l.filter p) := by
  induction l with
  | nil => rfl
  | cons a l ih =>
    simp only [List.insertionSort]
    rw [filter_orderedInsert d p a _ (List.sorted_insertionSort _ _)]
    by_cases ha : p a
    · rw [if_pos ha, ih, List.filter_cons_of_pos ha, List.insertionSort]
    · rw [if_neg ha, ih, List.filter_cons_of_neg ha]

theorem filter_lt_isSuffix {α : Type} (d : α → Nat) (n : Nat) (t : List α) :
    List.Sorted (measLE d) t →
      (t.filter (fun e => decide (n < d e))).IsSuffix t := by
  induction t with
  | nil => intro _; exact List.suffix_rfl
  | cons c t ih =>
    intro hs
    by_cases hc : n < d c
    · have hself : (c :: t).filter (fun e => decide (n < d e)) = c :: t := by
        rw [List.filter_eq_self]
        intro a ha
        rcases List.mem_cons.mp ha with rfl | hat
        · simpa using hc
        · simpa using Nat.lt_of_lt_of_le hc (List.rel_of_sorted_cons hs a hat)
      rw [hself]
    · rw [List.filter_cons_of_neg (by simpa using hc)]
      exact (ih hs.of_cons).trans (List.suffix_cons c t)

theorem lastTwo_eq_some_iff {α : Type} {l : List α} {a b : α} :
    lastTwo l = some (a, b) ↔ ∃ t, l.reverse = a :: b :: t := by
  cases h : l.reverse with
  | nil => simp [lastTwo, h]
  | cons x xs =>
    cases xs with
    | nil => simp [lastTwo, h]
    | cons y ys =>
      simp only [lastTwo, h, Option.some.injEq, Prod.mk.injEq, List.cons.injEq]
      constructor
      · rintro ⟨rfl, rfl⟩
        exact ⟨ys, rfl, rfl, rfl⟩
      · rintro ⟨t, rfl, rfl, _⟩
        exact ⟨rfl, rfl⟩

theorem lastTwo_length {α : Type} {l : List α} {a b : α}
    (h : lastTwo l = some (a, b)) : 2 ≤ l.length := by
  obtain ⟨t, ht⟩ := lastTwo_eq_some_iff.mp h
  have hlen := congrArg List.length ht
  simp only [List.length_reverse, List.length_cons] at hlen
  omega

theorem lastTwo_of_suffix {α : Type} {s t : List α} {a b : α}
    (hsf : s.IsSuffix t) (h : lastTwo s = some (a, b)) : lastTwo t = some (a, b) := by
  obtain ⟨pre, rfl⟩ := hsf
  obtain ⟨r, hr⟩ := lastTwo_eq_some_iff.mp h
  refine lastTwo_eq_some_iff.mpr ⟨r ++ pre.reverse, ?_⟩
  rw [List.reverse_append, hr]
  rfl

theorem lastTwo_filter {α : Type} {l : List α} {p : α → Bool} {a b : α}
    (h : lastTwo l = some (a, b)) (ha : p a = true) (hb : p b = true) :
    lastTwo (l.filter p) = some (a, b) := by
  obtain ⟨r, hr⟩ := lastTwo_eq_some_iff.mp h
  have hl : l = r.reverse ++ [b, a] := by
    have hrr := congrArg List.reverse hr
    simpa using hrr
  refine lastTwo_eq_some_iff.mpr ⟨(r.reverse.filter p).reverse, ?_⟩
  rw [hl, List.filter_append]
  have hba : [b, a].filter p = [b, a] := by
    rw [List.filter_cons_of_pos hb, List.filter_cons_of_pos ha]
    rfl
  rw [hba, List.reverse_append]
  rfl

/-- Inserting an element whose sort key is strictly smaller than the keys of
the two largest elements does not change the two largest elements of the
stable sort. -/
theorem lastTwo_insertionSort_insert {α : Type} (d : α → Nat) (g1 g2 : List α)
    (x a b : α)
    (h : lastTwo (List.insertionSort (measLE d) (g1 ++ g2)) = some (a, b))
    (hxa : d x < d a) (hxb : d x < d b) :
    lastTwo (List.insertionSort (measLE d) (g1 ++ x :: g2)) = some (a, b) := by
  have hfb : lastTwo ((List.insertionSort (measLE d) (g1 ++ g2)).filter
      (fun e => decide (d x < d e))) = some (a, b) :=
    lastTwo_filter h (by simpa using hxa) (by simpa using hxb)
  have h2 : (g1 ++ x :: g2).filter (fun e => decide (d x < d e)) =
      (g1 ++ g2).filter (fun e => decide (d x < d e)) := by
    rw [List.filter_append, List.filter_append,
      List.filter_cons_of_neg (by simp)]
  have hfi : lastTwo ((List.insertionSort (measLE d) (g1 ++ x :: g2)).filter
      (fun e => decide (d x < d e))) = some (a, b) := by
    rw [filter_insertionSort, h2, ← filter_insertionSort]
    exact hfb
  exact lastTwo_of_suffix
    (filter_lt_isSuffix d (d x) _ (List.sorted_insertionSort _ _)) hfi

/-! ### Helper lemmas: the CSV detector -/

theorem detectPair_ckey {k : String × String} {g : List Row} {c : ChangeRecord}
    (h : detectPair k g = some c) : ckey c = k := by
  unfold detectPair at h
  split at h
  · split at h
    · simp only [ne_eq] at h
      split at h
      · injection h with hc
        subst hc
        simp [ckey]
      · exact absurd h (by simp)
    · simp only [ne_eq] at h
      split at h
      · injection h with hc
        subst hc
        simp [ckey]
      · exact absurd h (by simp)
  · exact absurd h (by simp)

theorem find?_filterMap_by_key {κ β : Type} [DecidableEq κ] (key : β → κ)
    (F : κ → Option β) (hF : ∀ k' c, F k' = some c → key c = k') (k : κ)
    (ks : List κ) : ks.Pairwise (fun a b => a ≠ b) →
      (ks.filterMap F).find? (fun c => decide (key c = k)) =
        if k ∈ ks then F k else none := by
  induction ks with
  | nil => intro _; simp
  | cons k' ks ih =>
    intro hnd
    have hnd' := hnd.of_cons
    have hhead : ∀ b ∈ ks, k' ≠ b := fun b hb => List.rel_of_pairwise_cons hnd hb
    have hmemiff : k ∈ k' :: ks → k' ≠ k → k ∈ ks := by
      intro hm hk
      rcases List.mem_cons.mp hm with he | hm'
      · exact absurd he.symm hk
      · exact hm'
    rw [List.filterMap_cons]
    cases hFk : F k' with
    | none =>
      rw [ih hnd']
      by_cases hk : k' = k
      · subst hk
        have hnotin : k' ∉ ks := fun hm => hhead k' hm rfl
        rw [if_neg hnotin, if_pos (List.mem_cons_self _ _), hFk]
      · by_cases hmem : k ∈ ks
        · rw [if_pos hmem, if_pos (List.mem_cons_of_mem _ hmem)]
        · rw [if_neg hmem, if_neg (fun hm => hmem (hmemiff hm hk))]
    | some c =>
      have hkc : key c = k' := hF _ _ hFk
      by_cases hk : k' = k
      · subst hk
        rw [List.find?_cons_of_pos _ (by simpa using hkc),
          if_pos (List.mem_cons_self _ _), hFk]
      · rw [List.find?_cons_of_neg _
          (by simp only [hkc, decide_eq_true_eq]; exact hk), ih hnd']
        by_cases hmem : k ∈ ks
        · rw [if_pos hmem, if_pos (List.mem_cons_of_mem _ hmem)]
        · rw [if_neg hmem, if_neg (fun hm => hmem (hmemiff hm hk))]

/-- The CSV change list has exactly the record `detectPair` computes for each
pair: looking a pair up in the output is running the per-pair detection. -/
theorem findByKey_csv (rows : List Row) (k : String × String) :
    findByKey k (get_price_changes_csv rows) = detectPair k (groupOf rows k) := by
  unfold findByKey get_price_changes_csv
  have hnd : (dedupByKeyAux id (rows.map rkey) []).Pairwise
      (fun a b : String × String => a ≠ b) :=
    pairwise_dedupByKeyAux id (rows.map rkey) []
  rw [find?_filterMap_by_key ckey (fun k' => detectPair k' (groupOf rows k'))
    (fun _ _ h => detectPair_ckey h) k _ hnd]
  by_cases hk : k ∈ dedupByKeyAux id (rows.map rkey) []
  · rw [if_pos hk]
  · rw [if_neg hk]
    have hnotin : k ∉ rows.map rkey := by
      intro hm
      exact hk ((mem_dedupByKeyAux_id _ _ _).mpr ⟨hm, List.not_mem_nil k⟩)
    have hgroup : groupOf rows k = [] := by
      rw [groupOf, List.filter_eq_nil_iff]
      intro r hr
      simp only [decide_eq_true_eq]
      intro he
      exact hnotin (he ▸ List.mem_map_of_mem rkey hr)
    rw [hgroup]
    rfl

theorem detectPair_insert_older (k : String × String) (g1 g2 : List Row) (x a b : Row)
    (h : lastTwo (sortByDate (g1 ++ g2)) = some (a, b))
    (hxa : x.date < a.date) (hxb : x.date < b.date) :
    detectPair k (g1 ++ x :: g2) = detectPair k (g1 ++ g2) := by
  have h' : lastTwo (sortByDate (g1 ++ x :: g2)) = some (a, b) :=
    lastTwo_insertionSort_insert Row.date g1 g2 x a b h hxa hxb
  unfold detectPair
  rw [h, h']

theorem groupOf_append (l1 l2 : List Row) (k : String × String) :
    groupOf (l1 ++ l2) k = groupOf l1 k ++ groupOf l2 k := by
  unfold groupOf
  exact List.filter_append _ _

theorem groupOf_cons_of_ne (x : Row) (l : List Row) (k : String × String)
    (h : rkey x ≠ k) : groupOf (x :: l) k = groupOf l k := by
  unfold groupOf
  rw [List.filter_cons_of_neg (by simpa using h)]

theorem groupOf_cons_of_eq (x : Row) (l : List Row) (k : String × String)
    (h : rkey x = k) : groupOf (x :: l) k = x :: groupOf l k := by
  unfold groupOf
  rw [List.filter_cons_of_pos (by simpa using h)]

/-! ### Helper lemmas: the MySQL detector -/

theorem pairRows_insert_of_ne (products shops : List (Nat × String))
    (urls : List (Nat × Nat × String)) (p1 p2 : List PriceRow) (x : PriceRow)
    (k : Nat × Nat) (hk : k ≠ pkey x) :
    pairRows ⟨products, shops, urls, p1 ++ x :: p2⟩ k =
      pairRows ⟨products, shops, urls, p1 ++ p2⟩ k := by
  unfold pairRows
  rw [List.filter_append, List.filter_append,
    List.filter_cons_of_neg (by simp only [decide_eq_true_eq]; exact fun he => hk he.symm)]

theorem pairRows_insert_of_eq (products shops : List (Nat × String))
    (urls : List (Nat × Nat × String)) (p1 p2 : List PriceRow) (x : PriceRow) :
    pairRows ⟨products, shops, urls, p1 ++ x :: p2⟩ (pkey x) =
      p1.filter (fun r => decide (pkey r = pkey x)) ++
        x :: p2.filter (fun r => decide (pkey r = pkey x)) := by
  unfold pairRows
  rw [List.filter_append, List.filter_cons_of_pos (by simp)]

theorem mysqlPairRecord_insert_older (products shops : List (Nat × String))
    (urls : List (Nat × Nat × String)) (p1 p2 : List PriceRow) (x a b : PriceRow)
    (h : lastTwo (sortByTimestamp
      (pairRows ⟨products, shops, urls, p1 ++ p2⟩ (pkey x))) = some (a, b))
    (hxa : x.timestamp < a.timestamp) (hxb : x.timestamp < b.timestamp)
    (k : Nat × Nat) :
    mysqlPairRecord ⟨products, shops, urls, p1 ++ x :: p2⟩ k =
      mysqlPairRecord ⟨products, shops, urls, p1 ++ p2⟩ k := by
  by_cases hk : k = pkey x
  · subst hk
    have hbase : pairRows ⟨products, shops, urls, p1 ++ p2⟩ (pkey x) =
        p1.filter (fun r => decide (pkey r = pkey x)) ++
          p2.filter (fun r => decide (pkey r = pkey x)) := by
      unfold pairRows
      rw [List.filter_append]
    rw [hbase] at h
    have h' : lastTwo (sortByTimestamp
        (pairRows ⟨products, shops, urls, p1 ++ x :: p2⟩ (pkey x))) = some (a, b) := by
      rw [pairRows_insert_of_eq]
      exact lastTwo_insertionSort_insert PriceRow.timestamp _ _ x a b h hxa hxb
    obtain ⟨t1, ht1⟩ := lastTwo_eq_some_iff.mp h'
    obtain ⟨t2, ht2⟩ := lastTwo_eq_some_iff.mp (hbase ▸ h)
    unfold mysqlPairRecord
    rw [ht1, ht2]
    rfl
  · have hrows := pairRows_insert_of_ne products shops urls p1 p2 x k hk
    unfold mysqlPairRecord
    rw [hrows]

/-! ### Helper lemmas: aggregation and run-context filtering -/

theorem findByKey_aggregate (batches : List (List ChangeRecord)) (k : String × String) :
    findByKey k (aggregate batches) = findByKey k batches.flatten := by
  unfold aggregate findByKey
  by_cases h : batches.flatten = []
  · rw [if_pos h, h]
  · rw [if_neg h]
    exact find?_dedupByKeyAux ckey k _ [] (List.not_mem_nil k)

theorem pairwise_aggregate (batches : List (List ChangeRecord)) :
    (aggregate batches).Pairwise (fun a b => ckey a ≠ ckey b) := by
  unfold aggregate
  by_cases h : batches.flatten = []
  · rw [if_pos h, h]
    exact List.Pairwise.nil
  · rw [if_neg h]
    exact pairwise_dedupByKeyAux ckey _ []

/-- The two guarded passes of the run-context filter collapse to a single
filter keeping exactly the records whose key is not failed and whose product
is on the watchlist. -/
theorem runContextFilter_eq (changes : List ChangeRecord)
    (failed : List (String × String)) (watchlist : List String) :
    runContextFilter changes failed watchlist =
      changes.filter (fun c =>
        !decide (ckey c ∈ failed) && decide (c.product_name ∈ watchlist)) := by
  unfold runContextFilter
  by_cases h1 : changes ≠ [] ∧ failed ≠ []
  · rw [if_pos h1]
    by_cases h2 : changes.filter (fun c => !decide (ckey c ∈ failed)) ≠ []
    · rw [if_pos h2, List.filter_filter]
      have hfun : (fun c : ChangeRecord =>
          decide (c.product_name ∈ watchlist) && !decide (ckey c ∈ failed)) =
          fun c => !decide (ckey c ∈ failed) && decide (c.product_name ∈ watchlist) :=
        funext fun c => Bool.and_comm _ _
      rw [hfun]
    · rw [if_neg h2]
      have hall := List.filter_eq_nil_iff.mp (not_not.mp h2)
      rw [not_not.mp h2, eq_comm, List.filter_eq_nil_iff]
      intro a ha hcond
      rcases Bool.and_eq_true_iff.mp hcond with ⟨hnf, _⟩
      exact hall a ha hnf
  · rw [if_neg h1]
    rcases not_and_or.mp h1 with hc | hf
    · have hc' : changes = [] := not_not.mp hc
      subst hc'
      simp
    · have hf' : failed = [] := not_not.mp hf
      subst hf'
      have hfun : (fun c : ChangeRecord =>
          !decide (ckey c ∈ ([] : List (String × String))) &&
            decide (c.product_name ∈ watchlist)) =
          fun c => decide (c.product_name ∈ watchlist) := by
        funext c
        simp
      by_cases h2 : changes ≠ []
      · rw [if_pos h2, hfun]
      · have hc' : changes = [] := not_not.mp h2
        subst hc'
        simp

theorem findByKey_isSome_iff (l : List ChangeRecord) (k : String × String) :
    (findByKey k l).isSome ↔ ∃ c ∈ l, ckey c = k := by
  unfold findByKey
  rw [List.find?_isSome]
  simp

theorem detectPair_isSome_iff (k : String × String) (g : List Row) :
    (detectPair k g).isSome ↔
      ∃ a b, lastTwo (sortByDate g) = some (a, b) ∧ a.price ≠ b.price := by
  unfold detectPair
  cases hl : lastTwo (sortByDate g) with
  | none => simp
  | some ab =>
    obtain ⟨la, pr⟩ := ab
    simp only [ne_eq]
    by_cases hd : la.price = pr.price
    · rw [if_neg (not_not_intro (sub_eq_zero_of_eq hd))]
      simp [hd]
    · rw [if_pos (sub_ne_zero.mpr hd)]
      simp only [Option.isSome_some, Option.some.injEq, Prod.mk.injEq, ne_eq, true_iff]
      exact ⟨la, pr, ⟨rfl, rfl⟩, hd⟩

theorem lastTwo_sortByDate_length {g : List Row} {a b : Row}
    (h : lastTwo (sortByDate g) = some (a, b)) : 2 ≤ g.length := by
  have hlen := lastTwo_length h
  simpa [sortByDate] using hlen

theorem mysqlPairRecord_isSome_iff (db : MySQLDB) (k : Nat × Nat) :
    (mysqlPairRecord db k).isSome ↔
      (pairRows db k ≠ [] ∧ (findName db.products k.1).isSome ∧
        (findName db.shops k.2).isSome ∧ (findUrl db.product_urls k).isSome) := by
  unfold mysqlPairRecord
  cases hr : (sortByTimestamp (pairRows db k)).reverse with
  | nil =>
    have hnil : pairRows db k = [] := by
      have hlen := congrArg List.length hr
      simp only [List.length_reverse, List.length_nil] at hlen
      have hzero : (pairRows db k).length = 0 := by
        simpa [sortByTimestamp] using hlen
      exact List.length_eq_zero.mp hzero
    simp [hnil]
  | cons latest rest =>
    have hne : pairRows db k ≠ [] := by
      intro h0
      rw [h0] at hr
      simp [sortByTimestamp] at hr
    cases hp : findName db.products k.1 with
    | none => simp [hne, hp]
    | some pn =>
      cases hs : findName db.shops k.2 with
      | none => simp [hne, hp, hs]
      | some sn =>
        cases hu : findUrl db.product_urls k with
        | none => simp [hne, hp, hs, hu]
        | some url => simp [hne, hp, hs, hu]

/-! ### Claim theorems -/

/-- C1 (amended): for the CSV detector a ChangeRecord exists for a pair iff
the pair has at least two observations and the prices of the two most recent
ones differ; the MySQL detector does not share this behaviour: it emits a
record for every queried pair with at least one observation whose joins
succeed, regardless of how many observations exist or whether the two most
recent prices differ. -/
theorem changeRecord_existence_amended :
    (∀ (rows : List Row) (k : String × String),
        (∃ c ∈ get_price_changes_csv rows, ckey c = k) ↔
          (2 ≤ (groupOf rows k).length ∧
            ∃ a b, lastTwo (sortByDate (groupOf rows k)) = some (a, b) ∧
              a.price ≠ b.price)) ∧
    (∀ (db : MySQLDB) (k : Nat × Nat),
        (mysqlPairRecord db k).isSome ↔
          (pairRows db k ≠ [] ∧ (findName db.products k.1).isSome ∧
            (findName db.shops k.2).isSome ∧ (findUrl db.product_urls k).isSome)) := by
  refine ⟨?_, mysqlPairRecord_isSome_iff⟩
  intro rows k
  rw [← findByKey_isSome_iff, findByKey_csv, detectPair_isSome_iff]
  constructor
  · rintro ⟨a, b, hab, hne⟩
    exact ⟨lastTwo_sortByDate_length hab, a, b, hab, hne⟩
  · rintro ⟨_, a, b, hab, hne⟩
    exact ⟨a, b, hab, hne⟩

/-- C1 counterexample: a pair whose two most recent (and only) prices are
both `100` still yields a record from the MySQL detector, contradicting the
claim that an equal-price pair yields no ChangeRecord on the MySQL path. -/
theorem mysql_emits_record_for_equal_prices :
    (get_price_changes (demoDB [mkPrice 100 1, mkPrice 100 2]) [1]).2.map ckey =
      [("Widget", "ShopA")] := by decide

/-- C2 (amended): when the previous price is `0`, the CSV path defines
`percent_change` as exactly `0.0` without dividing; the MySQL path instead
produces SQL `NULL` (no error, infinity or NaN either), so its
`percent_change` is `None`, not `0.0`. -/
theorem percent_change_zero_prev_amended :
    (∀ (k : String × String) (prices : List Row) (latest previous : Row)
        (c : ChangeRecord),
        lastTwo (sortByDate prices) = some (latest, previous) →
        previous.price = 0 → detectPair k prices = some c →
          c.percent_change = some 0) ∧
    (∀ (db : MySQLDB) (k : Nat × Nat) (latest previous : PriceRow)
        (rest : List PriceRow) (c : ChangeRecord),
        (sortByTimestamp (pairRows db k)).reverse = latest :: previous :: rest →
        previous.price = 0 → mysqlPairRecord db k = some c →
          c.percent_change = none) := by
  constructor
  · intro k prices latest previous c hl hp hd
    unfold detectPair at hd
    rw [hl] at hd
    simp only [ne_eq] at hd
    split at hd
    · injection hd with hc
      subst hc
      simp [hp]
    · exact absurd hd (by simp)
  · intro db k latest previous rest c hr hp hd
    unfold mysqlPairRecord at hd
    rw [hr] at hd
    cases hpn : findName db.products k.1 with
    | none =>
      rw [hpn] at hd
      exact absurd hd (by simp)
    | some pn =>
      rw [hpn] at hd
      cases hsn : findName db.shops k.2 with
      | none =>
        rw [hsn] at hd
        exact absurd hd (by simp)
      | some sn =>
        rw [hsn] at hd
        cases hu : findUrl db.product_urls k with
        | none =>
          rw [hu] at hd
          exact absurd hd (by simp)
        | some url =>
          rw [hu] at hd
          injection hd with hc
          subst hc
          simp [hp]

/-- C2 counterexample: previous price `0`, latest price `50`: the MySQL
detector's record carries `percent_change = NULL` (`none`), not `0.0`. -/
theorem mysql_percent_change_null_on_zero_prev :
    (get_price_changes (demoDB [mkPrice 0 1, mkPrice 50 2]) [1]).2.map
        (fun c => c.percent_change) = [none] ∧ (none : Option ℚ) ≠ some 0 :=
  ⟨by decide, by simp⟩

/-- Witness for C2 (amended) at concrete histories with previous price 0. -/
theorem percent_change_zero_prev_amended_witness :
    (lastTwo (sortByDate [mkRow "Widget" "ShopA" 0 1, mkRow "Widget" "ShopA" 50 2]) =
        some (mkRow "Widget" "ShopA" 50 2, mkRow "Widget" "ShopA" 0 1) ∧
      (⟨"Widget", "ShopA", 50, "PLN", 2, some 50, some 0, "u", none⟩ :
          ChangeRecord).percent_change = some 0) ∧
    ((sortByTimestamp (pairRows (demoDB [mkPrice 0 1, mkPrice 50 2]) (1, 1))).reverse =
        [mkPrice 50 2, mkPrice 0 1] ∧
      (⟨"Widget", "ShopA", 50, "PLN", 2, some (50 - 0), none, "u", some 1⟩ :
          ChangeRecord).percent_change = none) :=
  ⟨⟨rfl, percent_change_zero_prev_amended.1 ("Widget", "ShopA")
      [mkRow "Widget" "ShopA" 0 1, mkRow "Widget" "ShopA" 50 2]
      (mkRow "Widget" "ShopA" 50 2) (mkRow "Widget" "ShopA" 0 1)
      ⟨"Widget", "ShopA", 50, "PLN", 2, some 50, some 0, "u", none⟩
      rfl rfl (by simp [detectPair, sortByDate, lastTwo, mkRow, measLE])⟩,
    ⟨rfl, percent_change_zero_prev_amended.2 (demoDB [mkPrice 0 1, mkPrice 50 2]) (1, 1)
      (mkPrice 50 2) (mkPrice 0 1) []
      ⟨"Widget", "ShopA", 50, "PLN", 2, some (50 - 0), none, "u", some 1⟩
      rfl rfl rfl⟩⟩

/-- C6: the detector's per-pair output depends only on the two
chronologically latest observations of the pair: inserting an observation
strictly older than both, or replacing one strictly-older observation by
another, leaves the per-pair output unchanged, for the CSV detector and for
the MySQL per-pair windowing. -/
theorem detect_depends_on_last_two :
    (∀ (l1 l2 : List Row) (x a b : Row),
        lastTwo (sortByDate (groupOf (l1 ++ l2) (rkey x))) = some (a, b) →
        x.date < a.date → x.date < b.date →
        ∀ k, findByKey k (get_price_changes_csv (l1 ++ x :: l2)) =
          findByKey k (get_price_changes_csv (l1 ++ l2))) ∧
    (∀ (l1 l2 : List Row) (y y' a b : Row),
        rkey y' = rkey y →
        lastTwo (sortByDate (groupOf (l1 ++ l2) (rkey y))) = some (a, b) →
        y.date < a.date → y.date < b.date → y'.date < a.date → y'.date < b.date →
        ∀ k, findByKey k (get_price_changes_csv (l1 ++ y :: l2)) =
          findByKey k (get_price_changes_csv (l1 ++ y' :: l2))) ∧
    (∀ (products shops : List (Nat × String)) (urls : List (Nat × Nat × String))
        (p1 p2 : List PriceRow) (x a b : PriceRow),
        lastTwo (sortByTimestamp
          (pairRows ⟨products, shops, urls, p1 ++ p2⟩ (pkey x))) = some (a, b) →
        x.timestamp < a.timestamp → x.timestamp < b.timestamp →
        ∀ k, mysqlPairRecord ⟨products, shops, urls, p1 ++ x :: p2⟩ k =
          mysqlPairRecord ⟨products, shops, urls, p1 ++ p2⟩ k) := by
  have hcsv : ∀ (l1 l2 : List Row) (x a b : Row),
      lastTwo (sortByDate (groupOf (l1 ++ l2) (rkey x))) = some (a, b) →
      x.date < a.date → x.date < b.date →
      ∀ k, findByKey k (get_price_changes_csv (l1 ++ x :: l2)) =
        findByKey k (get_price_changes_csv (l1 ++ l2)) := by
    intro l1 l2 x a b h hxa hxb k
    rw [findByKey_csv, findByKey_csv]
    by_cases hk : k = rkey x
    · subst hk
      have hbase : groupOf (l1 ++ l2) (rkey x) =
          groupOf l1 (rkey x) ++ groupOf l2 (rkey x) := groupOf_append l1 l2 _
      have hins : groupOf (l1 ++ x :: l2) (rkey x) =
          groupOf l1 (rkey x) ++ x :: groupOf l2 (rkey x) := by
        rw [groupOf_append, groupOf_cons_of_eq x l2 (rkey x) rfl]
      rw [hins, hbase]
      rw [hbase] at h
      exact detectPair_insert_older (rkey x) _ _ x a b h hxa hxb
    · have hsame : groupOf (l1 ++ x :: l2) k = groupOf (l1 ++ l2) k := by
        rw [groupOf_append, groupOf_append,
          groupOf_cons_of_ne x l2 k (fun he => hk he.symm)]
      rw [hsame]
  refine ⟨hcsv, ?_, ?_⟩
  · intro l1 l2 y y' a b hkey h hya hyb hy'a hy'b k
    have h1 := hcsv l1 l2 y a b h hya hyb k
    have h2 := hcsv l1 l2 y' a b (by rw [hkey]; exact h) hy'a hy'b k
    rw [h1, h2]
  · intro products shops urls p1 p2 x a b h hxa hxb k
    exact mysqlPairRecord_insert_older products shops urls p1 p2 x a b h hxa hxb k

/-- Witness for C6: inserting a much cheaper, strictly older observation
into a two-observation history does not change the detected record. -/
theorem detect_depends_on_last_two_witness :
    (lastTwo (sortByDate (groupOf ([mkRow "Widget" "ShopA" 100 10] ++
          [mkRow "Widget" "ShopA" 90 20]) (rkey (mkRow "Widget" "ShopA" 5000 1)))) =
        some (mkRow "Widget" "ShopA" 90 20, mkRow "Widget" "ShopA" 100 10) ∧
      (mkRow "Widget" "ShopA" 5000 1).date < (mkRow "Widget" "ShopA" 90 20).date ∧
      (mkRow "Widget" "ShopA" 5000 1).date < (mkRow "Widget" "ShopA" 100 10).date) ∧
      findByKey ("Widget", "ShopA")
          (get_price_changes_csv ([mkRow "Widget" "ShopA" 100 10] ++
            mkRow "Widget" "ShopA" 5000 1 :: [mkRow "Widget" "ShopA" 90 20])) =
        findByKey ("Widget", "ShopA")
          (get_price_changes_csv ([mkRow "Widget" "ShopA" 100 10] ++
            [mkRow "Widget" "ShopA" 90 20])) :=
  ⟨⟨rfl, by decide, by decide⟩,
    detect_depends_on_last_two.1 [mkRow "Widget" "ShopA" 100 10]
      [mkRow "Widget" "ShopA" 90 20] (mkRow "Widget" "ShopA" 5000 1)
      (mkRow "Widget" "ShopA" 90 20) (mkRow "Widget" "ShopA" 100 10)
      rfl (by decide) (by decide) ("Widget", "ShopA")⟩

/-- C3: combining change batches concatenates them in the requested backend
order and deduplicates by `(product_name, shop_name)` keeping the first
occurrence; when two batches both contain a record for the same pair, the
merged output contains the first-requested batch's record for that pair. -/
theorem aggregate_first_backend_wins :
    (∀ (batches : List (List ChangeRecord)) (k : String × String),
        findByKey k (aggregate batches) = findByKey k batches.flatten) ∧
    (∀ (A B : List ChangeRecord) (k : String × String),
        (findByKey k A).isSome →
          findByKey k (aggregate [A, B]) = findByKey k A) := by
  refine ⟨findByKey_aggregate, ?_⟩
  intro A B k h
  rw [findByKey_aggregate]
  have hflat : ([A, B] : List (List ChangeRecord)).flatten = A ++ B := by simp
  rw [hflat]
  unfold findByKey at h ⊢
  rw [List.find?_append]
  exact Option.or_of_isSome h

/-- Witness for C3 at a concrete collision: both batches report
`("Widget", "ShopA")`; the merged output keeps the first batch's record. -/
theorem aggregate_first_backend_wins_witness :
    (findByKey ("Widget", "ShopA") [mkRecord "Widget" "ShopA" 90 2 (some (-10)) (some (-10))]).isSome ∧
      findByKey ("Widget", "ShopA")
          (aggregate [[mkRecord "Widget" "ShopA" 90 2 (some (-10)) (some (-10))],
            [mkRecord "Widget" "ShopA" 80 3 (some (-20)) (some (-20))]]) =
        findByKey ("Widget", "ShopA") [mkRecord "Widget" "ShopA" 90 2 (some (-10)) (some (-10))] :=
  ⟨by decide, aggregate_first_backend_wins.2
    [mkRecord "Widget" "ShopA" 90 2 (some (-10)) (some (-10))]
    [mkRecord "Widget" "ShopA" 80 3 (some (-20)) (some (-20))]
    ("Widget", "ShopA") (by decide)⟩

/-- C4: the run-context filter removes exactly the records whose
`(product_name, shop_name)` key is in the failed-pair set or whose product
is not on the watchlist, and the survivors keep their relative order. -/
theorem runContextFilter_exact (changes : List ChangeRecord)
    (failed : List (String × String)) (watchlist : List String) :
    runContextFilter changes failed watchlist =
      changes.filter (fun c =>
        !decide (ckey c ∈ failed) && decide (c.product_name ∈ watchlist)) ∧
    (runContextFilter changes failed watchlist).Sublist changes :=
  ⟨runContextFilter_eq changes failed watchlist, by
    rw [runContextFilter_eq]
    exact List.filter_sublist changes⟩

/-- C7: the run-context filter is idempotent: refiltering its output with the
same failed-pair set and watchlist is a no-op. -/
theorem runContextFilter_idempotent (changes : List ChangeRecord)
    (failed : List (String × String)) (watchlist : List String) :
    runContextFilter (runContextFilter changes failed watchlist) failed watchlist =
      runContextFilter changes failed watchlist := by
  rw [runContextFilter_eq changes failed watchlist,
    runContextFilter_eq (changes.filter _) failed watchlist, List.filter_filter]
  simp [Bool.and_self]

/-- C5: a record with a defined `percent_change` enters the alert batch
exactly when `|percent_change|` meets or exceeds the threshold (inclusive
comparison), and the alert batch preserves the input order. -/
theorem classify_threshold_inclusive (changes : List ChangeRecord) (t : ℚ)
    (c : ChangeRecord) (p : ℚ) (hp : c.percent_change = some p) (ht : 0 ≤ t) :
    (c ∈ classify changes t ↔ c ∈ changes ∧ t ≤ |p|) ∧
      (classify changes t).Sublist changes := by
  unfold classify
  by_cases h : changes = []
  · rw [if_pos h]
    subst h
    simp
  · rw [if_neg h]
    refine ⟨?_, List.filter_sublist changes⟩
    rw [List.mem_filter]
    constructor
    · rintro ⟨hm, hcond⟩
      rw [hp] at hcond
      simp only [decide_eq_true_eq] at hcond
      exact ⟨hm, hcond⟩
    · rintro ⟨hm, hle⟩
      refine ⟨hm, ?_⟩
      rw [hp]
      simpa using hle

/-- Witness for C5 at the boundary: `percent_change` exactly equal to the
threshold is alerted. -/
theorem classify_threshold_inclusive_witness :
    ((mkRecord "Widget" "ShopA" 95 2 (some 35) (some 35)).percent_change =
        some 35 ∧ (0 : ℚ) ≤ 35) ∧
      ((mkRecord "Widget" "ShopA" 95 2 (some 35) (some 35) ∈
          classify [mkRecord "Widget" "ShopA" 95 2 (some 35) (some 35)] 35 ↔
        mkRecord "Widget" "ShopA" 95 2 (some 35) (some 35) ∈
            [mkRecord "Widget" "ShopA" 95 2 (some 35) (some 35)] ∧
          (35 : ℚ) ≤ |(35 : ℚ)|) ∧
        (classify [mkRecord "Widget" "ShopA" 95 2 (some 35) (some 35)]
          35).Sublist [mkRecord "Widget" "ShopA" 95 2 (some 35) (some 35)]) :=
  ⟨⟨rfl, by decide⟩, classify_threshold_inclusive
    [mkRecord "Widget" "ShopA" 95 2 (some 35) (some 35)] 35
    (mkRecord "Widget" "ShopA" 95 2 (some 35) (some 35)) 35
    rfl (by decide)⟩

/-- C8: `(product_name, shop_name)` is the pipeline's identity key: after
aggregation the batch has at most one record per pair, and the run-context
filter and the threshold classifier preserve that uniqueness. -/
theorem pair_key_uniqueness :
    (∀ batches : List (List ChangeRecord),
        (aggregate batches).Pairwise (fun a b => ckey a ≠ ckey b)) ∧
    (∀ (changes : List ChangeRecord) (failed : List (String × String))
        (watchlist : List String),
        changes.Pairwise (fun a b => ckey a ≠ ckey b) →
          (runContextFilter changes failed watchlist).Pairwise
            (fun a b => ckey a ≠ ckey b)) ∧
    (∀ (changes : List ChangeRecord) (t : ℚ),
        changes.Pairwise (fun a b => ckey a ≠ ckey b) →
          (classify changes t).Pairwise (fun a b => ckey a ≠ ckey b)) := by
  refine ⟨pairwise_aggregate, ?_, ?_⟩
  · intro changes failed watchlist hp
    rw [runContextFilter_eq]
    exact List.Pairwise.sublist (List.filter_sublist changes) hp
  · intro changes t hp
    unfold classify
    by_cases h : changes = []
    · rw [if_pos h]
      exact List.Pairwise.nil
    · rw [if_neg h]
      exact List.Pairwise.sublist (List.filter_sublist changes) hp

/-- Witness for C8 at a concrete input. -/
theorem pair_key_uniqueness_witness :
    ([mkRecord "Widget" "ShopA" 90 2 (some (-10)) (some (-10))] : List ChangeRecord).Pairwise
        (fun a b => ckey a ≠ ckey b) ∧
      (runContextFilter [mkRecord "Widget" "ShopA" 90 2 (some (-10)) (some (-10))] []
          ["Widget"]).Pairwise (fun a b => ckey a ≠ ckey b) :=
  ⟨by simp, pair_key_uniqueness.2.1
    [mkRecord "Widget" "ShopA" 90 2 (some (-10)) (some (-10))] [] ["Widget"] (by simp)⟩

/-- C9: the MySQL change retrieval called with an empty product-id list
returns the empty list without constructing or executing any query. -/
theorem mysql_get_price_changes_empty_ids (db : MySQLDB) :
    get_price_changes db [] = ([], []) := rfl

/-- C10: the alert dispatcher invoked with an empty change list performs no
effect at all (no message building, no SMTP connection, no send); delivery
effects occur only for a non-empty alert batch. -/
theorem send_email_alert_empty_noop :
    (∀ (host user : String) (port : Nat), send_email_alert [] host user port = []) ∧
    (∀ (changes : List ChangeRecord) (host user : String) (port : Nat),
        send_email_alert changes host user port ≠ [] → changes ≠ []) ∧
    (∀ (host user : String) (port : Nat), dispatchAlerts [] host user port = []) := by
  refine ⟨fun _ _ _ => rfl, ?_, fun _ _ _ => rfl⟩
  intro changes host user port hne hc
  subst hc
  exact hne rfl

/-- Witness for C10's non-empty direction at a concrete input. -/
theorem send_email_alert_empty_noop_witness :
    send_email_alert [mkRecord "Widget" "ShopA" 90 2 (some (-10)) (some (-10))]
        "smtp.example.com" "user" 465 ≠ [] ∧
      ([mkRecord "Widget" "ShopA" 90 2 (some (-10)) (some (-10))] :
          List ChangeRecord) ≠ [] :=
  ⟨by decide, send_email_alert_empty_noop.2.1
    [mkRecord "Widget" "ShopA" 90 2 (some (-10)) (some (-10))]
    "smtp.example.com" "user" 465 (by decide)⟩

end PriceMonitor
